import Mathlib

/-!
# A verification development of `arc-solver.py`

This file gives a shallow embedding of the core solver of `src/arc-solver.py`
(the functions `infer_color_permutation_csp`, `csp_solver` and
`solve_arc_task_baseline`, together with the pure counting core of
`digest_training_data`) and proves properties of that embedding.

Modelling conventions:
* A Python grid (list of lists of ints) is `Grid := List (List Int)`.
* A training pair (a dict with keys `"input"` and `"output"`) is `GridPair`.
* `np.array(g).shape` of a rectangular grid is `npShape g`: `(0,)` for a
  grid with no rows is distinguished from every nonempty shape, so for the
  rectangular grids in scope the pair (row count, first-row length) compares
  exactly as the numpy shape tuple does.
* `np.unique` returns the sorted distinct values: `npUnique`.
* A Python dict of ints is an association list with unique keys; writing to
  it is `dinsert` (overwrite in place, or append a fresh key at the end),
  reading with a default is `(m.lookup k).getD d`.
* `np.vectorize(f)(a)` applies `f` elementwise, except that numpy raises
  `ValueError` when `a` has size 0 (no `otypes` is passed anywhere in the
  source); so `mapGridExc f g` returns `none` (the exception) exactly when
  the grid has no cells, and `some` of the elementwise map otherwise.
* `np.full_like(a, v)` is `fullLike g v`.
* An uncaught Python exception is `none` at `Option`; code whose exceptions
  are all caught has a non-optional result type.
-/

/-- A color is a plain (unbounded) integer, as in the Python source. -/
abbrev Color := Int

/-- A grid: ordered rows of colors, as the Python nested lists. -/
abbrev Grid := List (List Color)

/-- A training pair, the Python dict `{"input": ..., "output": ...}`. -/
structure GridPair where
  input : Grid
  output : Grid
deriving DecidableEq

/-- Length of the first row (0 when there are no rows). -/
def rowLen (g : Grid) : Nat := (g.headD []).length

/-- The numpy shape of a rectangular grid, as compared by `a.shape != b.shape`. -/
def npShape (g : Grid) : Nat × Nat := (g.length, rowLen g)

/-- Rectangularity: every row has the common length.  The claims quantify over
rectangular grids; `np.array` only produces a numeric 2-D array for these. -/
def Rect (g : Grid) : Prop := ∀ r ∈ g, r.length = rowLen g

instance (g : Grid) : Decidable (Rect g) := by
  unfold Rect; infer_instance

/-- `np.vectorize(f)(np.array g).tolist()`: elementwise application, except
that numpy raises `ValueError` on size-0 inputs when `otypes` is not set
(none of the `np.vectorize` calls in the source sets it), modelled as `none`. -/
def mapGridExc (f : Color → Color) (g : Grid) : Option Grid :=
  if g.flatten.isEmpty then none else some (g.map (List.map f))

/-- `np.full_like(np.array g, v).tolist()`: a grid of `g`'s shape filled with `v`. -/
def fullLike (g : Grid) (v : Color) : Grid :=
  g.map (fun r => r.map (fun _ => v))

/-- Insert `x` into a strictly ascending list, keeping it strictly ascending. -/
def insortU (x : Color) : List Color → List Color
  | [] => [x]
  | y :: ys => if x < y then x :: y :: ys else if x = y then y :: ys else y :: insortU x ys

/-- `np.unique` on the cells of a (flattened) list: the sorted distinct values. -/
def npUnique (l : List Color) : List Color :=
  l.foldl (fun acc x => insortU x acc) []

/-- Writing `m[k] = v` to a Python dict: overwrite the value of an existing
key in place, otherwise append the fresh key at the end. -/
def dinsert (m : List (Color × Color)) (k v : Color) : List (Color × Color) :=
  if (m.lookup k).isSome then m.map (fun q => if q.1 = k then (k, v) else q)
  else m ++ [(k, v)]

/-- The `color_map` learned by `solve_arc_task_baseline` (lines 110–118):
for each training pair, zip the sorted distinct input colors with the sorted
distinct output colors (`zip` truncates to the shorter list) and write each
pair into the dict in order. -/
def learnColorMap (train : List GridPair) : List (Color × Color) :=
  train.foldl
    (fun m p =>
      ((npUnique p.input.flatten).zip (npUnique p.output.flatten)).foldl
        (fun m q => dinsert m q.1 q.2) m)
    []

/-- `solve_arc_task_baseline(train_pairs, test_input, global_color)`
(lines 101–126).  The learning loop cannot raise on well-formed pairs; the
application step is `np.vectorize` of a dict lookup defaulting to the prior
(or, with no prior, to the cell's own color), and its `except` branch is
`np.full_like` with the prior (or `0` with no prior). -/
def solve_arc_task_baseline (train : List GridPair) (test : Grid)
    (prior : Option Color) : Grid :=
  let cmap := learnColorMap train
  match mapGridExc (fun c => (cmap.lookup c).getD (prior.getD c)) test with
  | some g => g
  | none => fullLike test (prior.getD 0)

/-- One aligned cell step of `infer_color_permutation_csp` (lines 73–87).
State: the mapping dict and the `used_targets` list.  Functional conflict or
(when enforced) injectivity conflict is the early `return None`. -/
def cspStep (enforce : Bool) (st : List (Color × Color) × List Color)
    (cell : Color × Color) : Option (List (Color × Color) × List Color) :=
  match st.1.lookup cell.1 with
  | some v => if v ≠ cell.2 then none else some st
  | none =>
    if enforce = true ∧ cell.2 ∈ st.2 then none
    else some (st.1 ++ [(cell.1, cell.2)], if enforce then st.2 ++ [cell.2] else st.2)

/-- The evidence a training pair contributes: its aligned cells in row-major
order when the input and output shapes match, nothing otherwise (line 70:
`if a.shape != b.shape: continue`; line 73: `zip(a.ravel(), b.ravel())`). -/
def alignedCells (p : GridPair) : List (Color × Color) :=
  if npShape p.input = npShape p.output then p.input.flatten.zip p.output.flatten else []

/-- `infer_color_permutation_csp(train_pairs, enforce_injective)` (lines
56–89): fold the cell steps over all pairs; `None` on conflict, and
`mapping if mapping else None` at the end. -/
def infer_color_permutation_csp (train : List GridPair) (enforce : Bool) :
    Option (List (Color × Color)) :=
  match train.foldlM (fun st p => (alignedCells p).foldlM (cspStep enforce) st)
      (([], []) : List (Color × Color) × List Color) with
  | none => none
  | some st => if st.1.isEmpty then none else some st.1

/-- `csp_solver(train_pairs, test_input, global_color)` (lines 92–99): apply
the inferred mapping (identity on unmapped colors) when inference succeeds
— this `np.vectorize` call is not inside a `try`, so its exception escapes —
otherwise fall back to the baseline. -/
def csp_solver (train : List GridPair) (test : Grid) (prior : Option Color) :
    Option Grid :=
  match infer_color_permutation_csp train true with
  | some m => mapGridExc (fun c => (m.lookup c).getD c) test
  | none => some (solve_arc_task_baseline train test prior)

/-- Elementwise `(· + k) % 10` on a grid (the transform of claim C3). -/
def gridModAdd (k : Int) (g : Grid) : Grid :=
  g.map (List.map (fun c => (c + k) % 10))

/-- Total cell count of a color over a list of grids: the pure content of the
`color_counts` accumulation of `digest_training_data` (lines 38–47). -/
def countColor (outs : List Grid) (c : Color) : Nat :=
  (outs.map (fun g => g.flatten.count c)).sum

/-- The keys `0..9` of `color_counts`, in dict insertion order. -/
def colorKeys : List Color := [0, 1, 2, 3, 4, 5, 6, 7, 8, 9]

/-- `max(color_counts, key=color_counts.get)` (line 48): the first key of
highest count in insertion order, i.e. the smallest color on ties. -/
def dominant_color (outs : List Grid) : Color :=
  colorKeys.foldl (fun best c => if countColor outs c > countColor outs best then c else best) 0

/-- Modelled from the spec: the apply step of the DominantColorFill strategy
is absent from `src/` (only the dataset-level dominant-color computation,
`digest_training_data`, exists there); per §4.3 "return a grid of the test
input's shape filled entirely with that color", taking the dominant color of
the task's training outputs. -/
def dominant_fill (train : List GridPair) (test : Grid) : Grid :=
  fullLike test (dominant_color (train.map GridPair.output))

/-- The spec's description (§4.2) of the fallback color lists: "compute the
set of colors occurring in input and in output, sort each ascending". -/
def specSortedColors (l : List Color) : List Color :=
  l.dedup.insertionSort (· ≤ ·)

/-- The spec's description (§4.2) of the recorded rank pairs of all training
pairs of a task, in processing order: i-th smallest distinct input color with
i-th smallest distinct output color, truncated to the shorter list. -/
def spec_rank_writes (train : List GridPair) : List (Color × Color) :=
  train.flatMap (fun p =>
    (specSortedColors p.input.flatten).zip (specSortedColors p.output.flatten))

/-- The spec's description (§4.2) of the merged fallback ColorMap, as a lookup
function: "when multiple pairs give a key a different value, the value from
the later-processed pair wins" — i.e. the last write is found first when the
writes are read in reverse. -/
def spec_fallback_lookup (train : List GridPair) (c : Color) : Option Color :=
  (spec_rank_writes train).reverse.lookup c

/-- All aligned evidence cells of a task, in the traversal order of
`infer_color_permutation_csp` (pair order, then row-major cell order). -/
def taskCells (train : List GridPair) : List (Color × Color) :=
  train.flatMap alignedCells

/-- All dict writes performed by the learning loop of
`solve_arc_task_baseline`, in processing order. -/
def codeWrites (train : List GridPair) : List (Color × Color) :=
  train.flatMap (fun p => (npUnique p.input.flatten).zip (npUnique p.output.flatten))

/-- The functional constraint of the CSP, as a property of a multiset of
aligned cells: no input color is paired with two different output colors. -/
def FnConsistent (cs : List (Color × Color)) : Prop :=
  ∀ p ∈ cs, ∀ q ∈ cs, p.1 = q.1 → p.2 = q.2

/-- The injectivity constraint of the CSP, as a property of a multiset of
aligned cells: no two input colors are paired with the same output color. -/
def InjConsistent (cs : List (Color × Color)) : Prop :=
  ∀ p ∈ cs, ∀ q ∈ cs, p.2 = q.2 → p.1 = q.1

/-- Invariant of the CSP fold state: the mapping has unique keys, is
injective when injectivity is enforced, and `used_targets` is exactly the
set of mapped values (and is unused, hence empty, otherwise). -/
def StInv (e : Bool) (st : List (Color × Color) × List Color) : Prop :=
  (st.1.map Prod.fst).Nodup
  ∧ (e = true → InjConsistent st.1)
  ∧ (∀ y, y ∈ st.2 ↔ (e = true ∧ ∃ x, (x, y) ∈ st.1))

/-! ## Shape helper lemmas -/

theorem fullLike_map_length (g : Grid) (v : Color) :
    (fullLike g v).map List.length = g.map List.length := by
  simp [fullLike]

theorem fullLike_eq_self_of_flatten_nil (g : Grid) (v : Color)
    (h : g.flatten = []) : fullLike g v = g := by
  have hrows : ∀ r ∈ g, r = [] := by
    intro r hr
    exact List.eq_nil_of_subset_nil (by
      intro a ha
      have : a ∈ g.flatten := List.mem_flatten.2 ⟨r, hr, ha⟩
      simp [h] at this)
  unfold fullLike
  calc g.map (fun r => r.map (fun _ => v))
      = g.map id := by
        apply List.map_congr_left
        intro r hr
        rw [hrows r hr]
        rfl
    _ = g := List.map_id g

theorem baseline_map_length (train : List GridPair) (test : Grid)
    (prior : Option Color) :
    (solve_arc_task_baseline train test prior).map List.length = test.map List.length := by
  unfold solve_arc_task_baseline mapGridExc
  by_cases h : test.flatten.isEmpty
  · simp [h, fullLike_map_length]
  · simp [h]

/-! ## Claim C1: shape preservation -/

/-- C1: for every sequence of training pairs, every rectangular test input
grid and every optional prior, any grid returned by `csp_solver` has exactly
the test input's shape (row for row the same lengths, hence the same number
of rows and the same row length). -/
theorem solve_shape_eq (train : List GridPair) (test : Grid)
    (prior : Option Color) (g : Grid) (hrect : Rect test)
    (h : csp_solver train test prior = some g) :
    g.map List.length = test.map List.length := by
  unfold csp_solver at h
  cases hinf : infer_color_permutation_csp train true with
  | some m =>
    rw [hinf] at h
    unfold mapGridExc at h
    by_cases hemp : test.flatten.isEmpty
    · simp [hemp] at h
    · simp only [hemp, Bool.false_eq_true, if_false, Option.some.injEq] at h
      subst h
      simp
  | none =>
    rw [hinf] at h
    simp only [Option.some.injEq] at h
    subst h
    exact baseline_map_length train test prior

theorem solve_shape_eq_witness :
    Rect [[1, 2]] ∧
    csp_solver [⟨[[1]], [[5]]⟩] [[1, 2]] none = some [[5, 2]] ∧
    ([[5, 2]] : Grid).map List.length = ([[1, 2]] : Grid).map List.length :=
  ⟨by decide, by decide,
    solve_shape_eq [⟨[[1]], [[5]]⟩] [[1, 2]] none [[5, 2]] (by decide) (by decide)⟩

/-! ## Claim C2: totality of `csp_solver` -/

/-- C2 counterexample: on the well-formed input with one training pair
`{input=[[1]], output=[[2]]}` and the (rectangular, color-valid, empty) test
grid `[]`, `csp_solver` does not return a grid: strict inference succeeds
with the mapping `{1 ↦ 2}`, and the unguarded `np.vectorize` application
raises `ValueError` on the size-0 test array. -/
theorem solve_raises_on_empty_test :
    csp_solver [⟨[[1]], [[2]]⟩] [] none = none := by decide

/-- C2 amended: for every well-formed input (rectangular training grids,
rectangular test grid) whose test grid has at least one cell, `csp_solver`
returns a grid and never raises; only an empty test grid can make the call
raise (as in the counterexample). -/
theorem solve_total_on_nonempty (train : List GridPair) (test : Grid)
    (prior : Option Color)
    (htr : ∀ p ∈ train, Rect p.input ∧ Rect p.output) (hrect : Rect test)
    (hne : test.flatten ≠ []) :
    ∃ g, csp_solver train test prior = some g := by
  cases hinf : infer_color_permutation_csp train true with
  | some m =>
    exact ⟨test.map (List.map fun c => (List.lookup c m).getD c),
      by simp [csp_solver, hinf, mapGridExc, List.isEmpty_iff, hne]⟩
  | none =>
    exact ⟨solve_arc_task_baseline train test prior, by simp [csp_solver, hinf]⟩

theorem solve_total_on_nonempty_witness :
    (∀ p ∈ ([⟨[[1]], [[2]]⟩] : List GridPair), Rect p.input ∧ Rect p.output) ∧
    Rect [[7]] ∧ ([[7]] : Grid).flatten ≠ [] ∧
    ∃ g, csp_solver [⟨[[1]], [[2]]⟩] [[7]] none = some g :=
  ⟨by decide, by decide, by decide,
    solve_total_on_nonempty [⟨[[1]], [[2]]⟩] [[7]] none (by decide) (by decide)
      (by decide)⟩

/-! ## Claim C5: silent degradation of the baseline fallback -/

/-- C5: whenever `solve_arc_task_baseline` hits an internal error it degrades
silently and never raises: the only error reachable on well-formed
(rectangular) inputs is the elementwise apply step raising on a size-0
array, i.e. `test.flatten = []`; the caught handler then returns
`np.full_like` with the prior (or 0), which is the unmodified test input
grid when no prior is supplied — every row is empty — and the test-shaped
grid uniformly filled with the prior when one is supplied. -/
theorem baseline_error_degrades (train : List GridPair) (test : Grid)
    (prior : Option Color) (herr : test.flatten = []) :
    solve_arc_task_baseline train test prior =
      (match prior with
       | none => test
       | some p => fullLike test p) := by
  simp only [solve_arc_task_baseline, mapGridExc, herr, List.isEmpty_nil, if_true]
  cases prior with
  | none => simpa using fullLike_eq_self_of_flatten_nil test 0 herr
  | some p => rfl

theorem baseline_error_degrades_witness :
    ([[], []] : Grid).flatten = [] ∧
    solve_arc_task_baseline [] [[], []] (some 4) =
      (match (some 4 : Option Color) with
       | none => ([[], []] : Grid)
       | some p => fullLike [[], []] p) :=
  ⟨by decide, baseline_error_degrades [] [[], []] (some 4) (by decide)⟩

/-! ## Claim C7: mismatched pairs are skipped; no evidence means fallback -/

theorem trainFold_no_evidence (e : Bool) (train : List GridPair)
    (st : List (Color × Color) × List Color)
    (h : ∀ q ∈ train, alignedCells q = []) :
    train.foldlM (fun st p => (alignedCells p).foldlM (cspStep e) st) st = some st := by
  induction train generalizing st with
  | nil => rfl
  | cons q t ih =>
    rw [List.foldlM_cons, h q (by simp), List.foldlM_nil]
    simpa using ih st (fun q hq => h q (by simp [hq]))

theorem infer_no_evidence (e : Bool) (train : List GridPair)
    (h : ∀ q ∈ train, alignedCells q = []) :
    infer_color_permutation_csp train e = none := by
  unfold infer_color_permutation_csp
  rw [trainFold_no_evidence e train _ h]
  rfl

theorem infer_skip_mismatched (e : Bool) (pre post : List GridPair) (p : GridPair)
    (hp : npShape p.input ≠ npShape p.output) :
    infer_color_permutation_csp (pre ++ p :: post) e
      = infer_color_permutation_csp (pre ++ post) e := by
  have hcells : alignedCells p = [] := by unfold alignedCells; rw [if_neg hp]
  have hstep : (fun st => (p :: post).foldlM (fun st p => (alignedCells p).foldlM (cspStep e) st) st)
      = (fun st => post.foldlM (fun st p => (alignedCells p).foldlM (cspStep e) st) st) := by
    funext st
    rw [List.foldlM_cons, hcells, List.foldlM_nil]
    rfl
  unfold infer_color_permutation_csp
  rw [List.foldlM_append, List.foldlM_append, hstep]

/-- C7: a training pair whose input and output shapes differ contributes no
evidence to strict inference (it can be removed anywhere in the pair list
without changing the result, so it never causes a conflict), and when no
training pair contributes any evidence `infer_color_permutation_csp` returns
the failure signal `none`, so `csp_solver` falls through to the baseline
fallback and still returns a well-shaped prediction. -/
theorem mismatch_no_evidence (e : Bool) (pre post train : List GridPair)
    (p : GridPair) (test : Grid) (prior : Option Color)
    (hp : npShape p.input ≠ npShape p.output)
    (hnoev : ∀ q ∈ train, alignedCells q = []) :
    infer_color_permutation_csp (pre ++ p :: post) e
        = infer_color_permutation_csp (pre ++ post) e
    ∧ infer_color_permutation_csp train e = none
    ∧ csp_solver train test prior = some (solve_arc_task_baseline train test prior)
    ∧ (solve_arc_task_baseline train test prior).map List.length
        = test.map List.length := by
  refine ⟨infer_skip_mismatched e pre post p hp, infer_no_evidence e train hnoev,
    ?_, baseline_map_length train test prior⟩
  have h := infer_no_evidence true train hnoev
  simp [csp_solver, h]

theorem mismatch_no_evidence_witness :
    npShape ([[1]] : Grid) ≠ npShape ([[1], [2]] : Grid) ∧
    (∀ q ∈ ([⟨[[1]], [[1], [2]]⟩] : List GridPair), alignedCells q = []) ∧
    (infer_color_permutation_csp ([] ++ ⟨[[1]], [[1], [2]]⟩ :: []) true
        = infer_color_permutation_csp ([] ++ []) true
      ∧ infer_color_permutation_csp [⟨[[1]], [[1], [2]]⟩] true = none
      ∧ csp_solver [⟨[[1]], [[1], [2]]⟩] [[3]] none
          = some (solve_arc_task_baseline [⟨[[1]], [[1], [2]]⟩] [[3]] none)
      ∧ (solve_arc_task_baseline [⟨[[1]], [[1], [2]]⟩] [[3]] none).map List.length
          = ([[3]] : Grid).map List.length) :=
  ⟨by decide, by decide,
    mismatch_no_evidence true [] [] [⟨[[1]], [[1], [2]]⟩] ⟨[[1]], [[1], [2]]⟩
      [[3]] none (by decide) (by decide)⟩

/-! ## Claim C4: dominant-color fill -/

/-- C4: for every task whose training outputs have aggregate cell-color
frequencies `{0: 5, 3: 9, 7: 2}` across all pairs, the dominant color is `3`
and the dominant-color-fill prediction is a grid of the test input's shape
filled entirely with `3`, for any test input shape. -/
theorem dominant_fill_picks_three (train : List GridPair) (test : Grid)
    (h0 : countColor (train.map GridPair.output) 0 = 5)
    (h3 : countColor (train.map GridPair.output) 3 = 9)
    (h7 : countColor (train.map GridPair.output) 7 = 2)
    (hrest : ∀ c ∈ colorKeys, c ≠ 0 → c ≠ 3 → c ≠ 7 →
      countColor (train.map GridPair.output) c = 0) :
    dominant_color (train.map GridPair.output) = 3
    ∧ (dominant_fill train test).map List.length = test.map List.length
    ∧ ∀ v ∈ (dominant_fill train test).flatten, v = 3 := by
  have h1 := hrest 1 (by decide) (by decide) (by decide) (by decide)
  have h2 := hrest 2 (by decide) (by decide) (by decide) (by decide)
  have h4 := hrest 4 (by decide) (by decide) (by decide) (by decide)
  have h5 := hrest 5 (by decide) (by decide) (by decide) (by decide)
  have h6 := hrest 6 (by decide) (by decide) (by decide) (by decide)
  have h8 := hrest 8 (by decide) (by decide) (by decide) (by decide)
  have h9 := hrest 9 (by decide) (by decide) (by decide) (by decide)
  have hdom : dominant_color (train.map GridPair.output) = 3 := by
    simp only [dominant_color, colorKeys, List.foldl_cons, List.foldl_nil]
    norm_num [h0, h1, h2, h3, h4, h5, h6, h7, h8, h9]
  refine ⟨hdom, ?_, ?_⟩
  · unfold dominant_fill
    rw [hdom]
    exact fullLike_map_length test 3
  · intro v hv
    unfold dominant_fill at hv
    rw [hdom] at hv
    rcases List.mem_flatten.1 hv with ⟨r, hr, hvr⟩
    rcases List.mem_map.1 hr with ⟨r0, _, hr0⟩
    subst hr0
    rcases List.mem_map.1 hvr with ⟨_, _, hv3⟩
    exact hv3.symm

theorem dominant_fill_picks_three_witness :
    countColor ([⟨[[0]], [[0,0,0,0],[0,3,3,3],[3,3,3,3],[3,3,7,7]]⟩].map GridPair.output) 0 = 5 ∧
    countColor ([⟨[[0]], [[0,0,0,0],[0,3,3,3],[3,3,3,3],[3,3,7,7]]⟩].map GridPair.output) 3 = 9 ∧
    countColor ([⟨[[0]], [[0,0,0,0],[0,3,3,3],[3,3,3,3],[3,3,7,7]]⟩].map GridPair.output) 7 = 2 ∧
    (dominant_color ([⟨[[0]], [[0,0,0,0],[0,3,3,3],[3,3,3,3],[3,3,7,7]]⟩].map GridPair.output) = 3
      ∧ (dominant_fill [⟨[[0]], [[0,0,0,0],[0,3,3,3],[3,3,3,3],[3,3,7,7]]⟩] [[5,5],[5,5]]).map List.length
          = ([[5,5],[5,5]] : Grid).map List.length
      ∧ ∀ v ∈ (dominant_fill [⟨[[0]], [[0,0,0,0],[0,3,3,3],[3,3,3,3],[3,3,7,7]]⟩] [[5,5],[5,5]]).flatten, v = 3) :=
  ⟨by decide, by decide, by decide,
    dominant_fill_picks_three [⟨[[0]], [[0,0,0,0],[0,3,3,3],[3,3,3,3],[3,3,7,7]]⟩]
      [[5,5],[5,5]] (by decide) (by decide) (by decide) (by decide)⟩

/-! ## Association-list and list helper lemmas -/

theorem lookup_cons (x k v : Color) (l : List (Color × Color)) :
    ((k, v) :: l).lookup x = if x = k then some v else l.lookup x := by
  by_cases h : x = k
  · simp [List.lookup, h]
  · have hb : (x == k) = false := beq_eq_false_iff_ne.2 h
    simp [List.lookup, hb, h]

theorem lookup_some_mem {l : List (Color × Color)} {k v : Color}
    (h : l.lookup k = some v) : (k, v) ∈ l := by
  induction l with
  | nil => simp [List.lookup] at h
  | cons q t ih =>
    rw [show q = (q.1, q.2) from rfl, lookup_cons] at h
    by_cases hk : k = q.1
    · simp only [hk, if_true, Option.some.injEq] at h
      subst h; subst hk; exact List.mem_cons_self _ _
    · rw [if_neg hk] at h
      exact List.mem_cons_of_mem _ (ih h)

theorem lookup_none_not_mem {l : List (Color × Color)} {k v : Color}
    (h : l.lookup k = none) : (k, v) ∉ l := by
  induction l with
  | nil => simp
  | cons q t ih =>
    rw [show q = (q.1, q.2) from rfl, lookup_cons] at h
    by_cases hk : k = q.1
    · simp [hk] at h
    · rw [if_neg hk] at h
      intro hmem
      rcases List.mem_cons.1 hmem with heq | hmem'
      · exact hk (congrArg Prod.fst heq)
      · exact ih h hmem'

theorem lookup_none_key_not_mem {l : List (Color × Color)} {k : Color}
    (h : l.lookup k = none) : k ∉ l.map Prod.fst := by
  intro hk
  rcases List.mem_map.1 hk with ⟨q, hq, hq1⟩
  exact lookup_none_not_mem (v := q.2) h (by simpa [← hq1] using hq)

theorem lookup_isSome_of_mem {l : List (Color × Color)} {k v : Color}
    (h : (k, v) ∈ l) : (l.lookup k).isSome := by
  cases hl : l.lookup k with
  | some w => rfl
  | none => exact absurd h (lookup_none_not_mem hl)

theorem lookup_append (l₁ l₂ : List (Color × Color)) (k : Color) :
    (l₁ ++ l₂).lookup k =
      (match l₁.lookup k with
       | some v => some v
       | none => l₂.lookup k) := by
  induction l₁ with
  | nil => rfl
  | cons q t ih =>
    rw [List.cons_append, show q = (q.1, q.2) from rfl, lookup_cons, lookup_cons]
    by_cases hk : k = q.1
    · simp [hk]
    · rw [if_neg hk, if_neg hk, ih]

theorem mem_zip_map_self {x : Color} {l : List Color} (f : Color → Color)
    (h : x ∈ l) : (x, f x) ∈ l.zip (l.map f) := by
  induction l with
  | nil => simp at h
  | cons a t ih =>
    rcases List.mem_cons.1 h with rfl | h'
    · simp [List.zip_cons_cons]
    · exact List.mem_cons_of_mem _ (ih h')

theorem of_mem_zip_map_self {x y : Color} {l : List Color} {f : Color → Color}
    (h : (x, y) ∈ l.zip (l.map f)) : y = f x ∧ x ∈ l := by
  induction l with
  | nil => simp at h
  | cons a t ih =>
    rw [List.map_cons, List.zip_cons_cons] at h
    rcases List.mem_cons.1 h with heq | h'
    · rw [Prod.mk.injEq] at heq
      obtain ⟨rfl, rfl⟩ := heq
      exact ⟨rfl, List.mem_cons_self _ _⟩
    · exact ⟨(ih h').1, List.mem_cons_of_mem _ (ih h').2⟩

theorem mem_insortU (x a : Color) (l : List Color) :
    a ∈ insortU x l ↔ a = x ∨ a ∈ l := by
  induction l with
  | nil => simp [insortU]
  | cons y t ih =>
    unfold insortU
    by_cases h1 : x < y
    · rw [if_pos h1]
      simp only [List.mem_cons]
    · rw [if_neg h1]
      by_cases h2 : x = y
      · rw [if_pos h2]
        subst h2
        simp only [List.mem_cons]
        tauto
      · rw [if_neg h2]
        simp only [List.mem_cons, ih]
        tauto

theorem insortU_sorted (x : Color) (l : List Color)
    (h : l.Sorted (· < ·)) : (insortU x l).Sorted (· < ·) := by
  induction l with
  | nil => simp [insortU]
  | cons y t ih =>
    rw [List.sorted_cons] at h
    obtain ⟨hy, ht⟩ := h
    unfold insortU
    by_cases h1 : x < y
    · rw [if_pos h1, List.sorted_cons]
      refine ⟨?_, ?_⟩
      · intro b hb
        rcases List.mem_cons.1 hb with rfl | hb'
        · exact h1
        · exact lt_trans h1 (hy b hb')
      · rw [List.sorted_cons]
        exact ⟨hy, ht⟩
    · rw [if_neg h1]
      by_cases h2 : x = y
      · rw [if_pos h2, List.sorted_cons]
        exact ⟨hy, ht⟩
      · rw [if_neg h2, List.sorted_cons]
        refine ⟨?_, ih ht⟩
        intro b hb
        rcases (mem_insortU x b t).1 hb with rfl | hb'
        · exact lt_of_le_of_ne (not_lt.1 h1) (Ne.symm h2)
        · exact hy b hb'

theorem npUnique_spec (l : List Color) :
    (npUnique l).Sorted (· < ·) ∧ ∀ a, (a ∈ npUnique l ↔ a ∈ l) := by
  suffices h : ∀ acc : List Color, acc.Sorted (· < ·) →
      (l.foldl (fun acc x => insortU x acc) acc).Sorted (· < ·)
      ∧ ∀ a, (a ∈ l.foldl (fun acc x => insortU x acc) acc ↔ a ∈ acc ∨ a ∈ l) by
    have h0 := h [] (by simp)
    refine ⟨h0.1, fun a => ?_⟩
    rw [npUnique, (h0.2 a)]
    simp
  induction l with
  | nil =>
    intro acc hacc
    exact ⟨hacc, fun a => by simp⟩
  | cons x t ih =>
    intro acc hacc
    have h1 := ih (insortU x acc) (insortU_sorted x acc hacc)
    refine ⟨h1.1, fun a => ?_⟩
    rw [List.foldl_cons, h1.2 a, mem_insortU]
    simp only [List.mem_cons]
    tauto

theorem mem_npUnique {a : Color} {l : List Color} : a ∈ npUnique l ↔ a ∈ l :=
  (npUnique_spec l).2 a

theorem mem_dinsert {q : Color × Color} {m : List (Color × Color)} {k v : Color}
    (h : q ∈ dinsert m k v) : q ∈ m ∨ q = (k, v) := by
  unfold dinsert at h
  by_cases hk : (m.lookup k).isSome
  · rw [if_pos hk] at h
    rcases List.mem_map.1 h with ⟨w, hw, hwq⟩
    by_cases hw1 : w.1 = k
    · right; rw [← hwq, if_pos hw1]
    · left; rw [← hwq, if_neg hw1]; exact hw
  · rw [if_neg hk] at h
    rcases List.mem_append.1 h with h' | h'
    · exact Or.inl h'
    · exact Or.inr (by simpa using h')

theorem lookup_replace (t : List (Color × Color)) (k v c : Color) :
    (t.map (fun q => if q.1 = k then (k, v) else q)).lookup c
      = if c = k then (t.lookup k).map (fun _ => v) else t.lookup c := by
  induction t with
  | nil => by_cases hc : c = k <;> simp [List.lookup, hc]
  | cons q t ih =>
    rw [List.map_cons]
    by_cases hq1 : q.1 = k
    · rw [if_pos hq1, lookup_cons,
        show q = (q.1, q.2) from rfl, lookup_cons, lookup_cons]
      by_cases hc : c = k
      · rw [if_pos hc, if_pos hc, if_pos hq1.symm]
        rfl
      · rw [if_neg hc, if_neg hc, if_neg (fun h => hc (h.trans hq1)), ih,
          if_neg hc]
    · rw [if_neg hq1, show q = (q.1, q.2) from rfl, lookup_cons, lookup_cons,
        lookup_cons]
      by_cases hc : c = q.1
      · have hck : c ≠ k := fun h => hq1 (by rw [← hc, h])
        rw [if_pos hc, if_neg hck, if_pos hc]
      · rw [if_neg hc, if_neg hc, ih]
        by_cases hck : c = k
        · rw [if_pos hck, if_pos hck, if_neg (fun h => hq1 h.symm)]
        · rw [if_neg hck, if_neg hck]

theorem dinsert_lookup (m : List (Color × Color)) (k v c : Color) :
    (dinsert m k v).lookup c = if c = k then some v else m.lookup c := by
  unfold dinsert
  by_cases hk : (m.lookup k).isSome
  · rw [if_pos hk, lookup_replace]
    by_cases hc : c = k
    · rw [if_pos hc, if_pos hc]
      obtain ⟨w, hw⟩ := Option.isSome_iff_exists.1 hk
      rw [hw]
      rfl
    · rw [if_neg hc, if_neg hc]
  · rw [if_neg hk, lookup_append]
    cases hl : m.lookup c with
    | some w =>
      have hck : c ≠ k := by
        intro h
        subst h
        rw [hl] at hk
        simp at hk
      rw [if_neg hck]
    | none =>
      rw [lookup_cons]
      by_cases hc : c = k
      · rw [if_pos hc, if_pos hc]
      · rw [if_neg hc, if_neg hc]
        rfl

/-! ## Characterization of the CSP fold -/

theorem fnConsistent_congr {l₁ l₂ : List (Color × Color)}
    (h : ∀ a, a ∈ l₁ ↔ a ∈ l₂) : FnConsistent l₁ ↔ FnConsistent l₂ := by
  unfold FnConsistent
  constructor
  · intro hc p hp q hq
    exact hc p ((h p).2 hp) q ((h q).2 hq)
  · intro hc p hp q hq
    exact hc p ((h p).1 hp) q ((h q).1 hq)

theorem injConsistent_congr {l₁ l₂ : List (Color × Color)}
    (h : ∀ a, a ∈ l₁ ↔ a ∈ l₂) : InjConsistent l₁ ↔ InjConsistent l₂ := by
  unfold InjConsistent
  constructor
  · intro hc p hp q hq
    exact hc p ((h p).2 hp) q ((h q).2 hq)
  · intro hc p hp q hq
    exact hc p ((h p).1 hp) q ((h q).1 hq)

theorem fnConsistent_of_nodup_keys {m : List (Color × Color)}
    (h : (m.map Prod.fst).Nodup) : FnConsistent m := by
  intro p hp q hq hpq
  have heq := List.inj_on_of_nodup_map h hp hq hpq
  rw [heq]

theorem append_cons_mem_iff {c : Color × Color} {L R : List (Color × Color)}
    (hc : c ∈ L) : ∀ a, a ∈ L ++ c :: R ↔ a ∈ L ++ R := by
  intro a
  simp only [List.mem_append, List.mem_cons]
  constructor
  · rintro (h | rfl | h)
    · exact Or.inl h
    · exact Or.inl hc
    · exact Or.inr h
  · rintro (h | h)
    · exact Or.inl h
    · exact Or.inr (Or.inr h)

theorem cellsFold_spec (e : Bool) :
    ∀ (cs : List (Color × Color)) (st : List (Color × Color) × List Color),
      StInv e st →
      (((cs.foldlM (cspStep e) st).isSome ↔
        (FnConsistent (st.1 ++ cs) ∧ (e = true → InjConsistent (st.1 ++ cs))))
      ∧ ∀ st', cs.foldlM (cspStep e) st = some st' →
          (∃ ext, st'.1 = st.1 ++ ext ∧ ∀ p ∈ ext, p ∈ cs)
          ∧ ∀ p ∈ cs, (st'.1.lookup p.1).isSome) := by
  intro cs
  induction cs with
  | nil =>
    intro st hinv
    constructor
    · simp only [List.foldlM_nil, List.append_nil]
      constructor
      · intro _
        exact ⟨fnConsistent_of_nodup_keys hinv.1, hinv.2.1⟩
      · intro _
        rfl
    · intro st' hst'
      have hst : st' = st := by
        simpa [List.foldlM_nil] using hst'.symm
      subst hst
      exact ⟨⟨[], by simp, by simp⟩, by simp⟩
  | cons cell rest ih =>
    intro st hinv
    obtain ⟨x, y⟩ := cell
    rw [List.foldlM_cons]
    cases hl : st.1.lookup x with
    | some v =>
      by_cases hv : v = y
      · -- already mapped consistently: the state is unchanged
        have hstep : cspStep e st (x, y) = some st := by
          simp [cspStep, hl, hv]
        rw [hstep]
        have hbind : (some st >>= fun b => rest.foldlM (cspStep e) b)
            = rest.foldlM (cspStep e) st := rfl
        rw [hbind]
        have hmem : (x, y) ∈ st.1 := by
          subst hv
          exact lookup_some_mem hl
        have hsets := append_cons_mem_iff (R := rest) hmem
        have hih := ih st hinv
        constructor
        · rw [hih.1]
          exact (and_congr (fnConsistent_congr hsets)
            (imp_congr Iff.rfl (injConsistent_congr hsets))).symm
        · intro st' hst'
          have h2 := hih.2 st' hst'
          obtain ⟨ext, hext, hextmem⟩ := h2.1
          refine ⟨⟨ext, hext, fun p hp => List.mem_cons_of_mem _ (hextmem p hp)⟩, ?_⟩
          intro p hp
          rcases List.mem_cons.1 hp with rfl | hp'
          · rw [hext, lookup_append, hl]
            rfl
          · exact h2.2 p hp'
      · -- functional conflict: the whole fold fails
        have hstep : cspStep e st (x, y) = none := by
          simp [cspStep, hl, hv]
        rw [hstep]
        have hbind : ((none : Option _) >>= fun b => rest.foldlM (cspStep e) b)
            = none := rfl
        rw [hbind]
        constructor
        · simp only [Option.isSome_none, Bool.false_eq_true, false_iff]
          rintro ⟨hfn, _⟩
          exact hv (hfn (x, v) (List.mem_append_left _ (lookup_some_mem hl))
            (x, y) (by simp) rfl)
        · intro st' hst'
          simp at hst'
    | none =>
      by_cases hcond : e = true ∧ y ∈ st.2
      · -- injectivity conflict: the whole fold fails
        have hstep : cspStep e st (x, y) = none := by
          simp only [cspStep, hl]
          rw [if_pos hcond]
        rw [hstep]
        have hbind : ((none : Option _) >>= fun b => rest.foldlM (cspStep e) b)
            = none := rfl
        rw [hbind]
        constructor
        · simp only [Option.isSome_none, Bool.false_eq_true, false_iff]
          rintro ⟨_, hinj⟩
          obtain ⟨he, hy⟩ := hcond
          obtain ⟨x', hx'⟩ := ((hinv.2.2 y).1 hy).2
          have hxx : x' ≠ x := by
            intro h
            subst h
            exact lookup_none_not_mem hl hx'
          exact hxx (hinj he (x', y) (List.mem_append_left _ hx')
            (x, y) (by simp) rfl)
        · intro st' hst'
          simp at hst'
      · -- fresh key: record it and keep going
        have hstep : cspStep e st (x, y) =
            some (st.1 ++ [(x, y)], if e then st.2 ++ [y] else st.2) := by
          simp only [cspStep, hl]
          rw [if_neg hcond]
        rw [hstep]
        have hbind : (some (st.1 ++ [(x, y)], if e then st.2 ++ [y] else st.2)
              >>= fun b => rest.foldlM (cspStep e) b)
            = rest.foldlM (cspStep e)
                (st.1 ++ [(x, y)], if e then st.2 ++ [y] else st.2) := rfl
        rw [hbind]
        have hxnotkey : x ∉ st.1.map Prod.fst := lookup_none_key_not_mem hl
        have hinv1 : StInv e (st.1 ++ [(x, y)], if e then st.2 ++ [y] else st.2) := by
          refine ⟨?_, ?_, ?_⟩
        --  unique keys
          · show ((st.1 ++ [(x, y)]).map Prod.fst).Nodup
            rw [List.map_append]
            show (st.1.map Prod.fst ++ [x]).Nodup
            rw [(List.perm_append_singleton _ _).nodup_iff]
            exact List.nodup_cons.2 ⟨hxnotkey, hinv.1⟩
        --  injectivity of the extended mapping
          · intro he p hp q hq hpq
            have hynot : y ∉ st.2 := fun hy => hcond ⟨he, hy⟩
            have hkey : ∀ r : Color × Color, r ∈ st.1 → r.2 = y → False := by
              intro r hr hr2
              exact hynot ((hinv.2.2 y).2 ⟨he, r.1, by
                rw [show (r.1, y) = r from by rw [← hr2]]
                exact hr⟩)
            rcases List.mem_append.1 hp with hpL | hpR
            · rcases List.mem_append.1 hq with hqL | hqR
              · exact hinv.2.1 he p hpL q hqL hpq
              · have hq' : q = (x, y) := by simpa using hqR
                exact absurd (hpq.trans (by rw [hq'])) (by
                  intro h
                  exact hkey p hpL h)
              -- unreachable fallthrough
            · have hp' : p = (x, y) := by simpa using hpR
              rcases List.mem_append.1 hq with hqL | hqR
              · exact absurd (hpq.symm.trans (by rw [hp'])) (by
                  intro h
                  exact hkey q hqL h)
              · have hq' : q = (x, y) := by simpa using hqR
                rw [hp', hq']
        --  used_targets is the set of mapped values
          · intro y'
            by_cases he : e = true
            · rw [if_pos he]
              constructor
              · intro hy'
                rcases List.mem_append.1 hy' with hyold | hynew
                · obtain ⟨x', hx'⟩ := ((hinv.2.2 y').1 hyold).2
                  exact ⟨he, x', List.mem_append_left _ hx'⟩
                · have : y' = y := by simpa using hynew
                  subst this
                  exact ⟨he, x, List.mem_append_right _ (by simp)⟩
              · rintro ⟨-, x', hx'⟩
                rcases List.mem_append.1 hx' with hold | hnew
                · exact List.mem_append_left _
                    ((hinv.2.2 y').2 ⟨he, x', hold⟩)
                · have hxy : (x', y') = (x, y) := by simpa using hnew
                  have hy' : y' = y := congrArg Prod.snd hxy
                  exact List.mem_append_right _ (by simp [hy'])
            · rw [if_neg he]
              constructor
              · intro hy'
                exact absurd ((hinv.2.2 y').1 hy').1 he
              · rintro ⟨he', -⟩
                exact absurd he' he
        have hih := ih _ hinv1
        have happ : (st.1 ++ [(x, y)]) ++ rest = st.1 ++ (x, y) :: rest := by
          rw [List.append_assoc, List.singleton_append]
        constructor
        · rw [hih.1]
          show (FnConsistent ((st.1 ++ [(x, y)]) ++ rest) ∧ _) ↔ _
          rw [happ]
        · intro st' hst'
          obtain ⟨⟨ext, hext, hextmem⟩, hcov⟩ := hih.2 st' hst'
          refine ⟨⟨(x, y) :: ext, ?_, ?_⟩, ?_⟩
          · rw [hext, List.append_assoc, List.singleton_append]
          · intro p hp
            rcases List.mem_cons.1 hp with rfl | hp'
            · simp
            · exact List.mem_cons_of_mem _ (hextmem p hp')
          · intro p hp
            rcases List.mem_cons.1 hp with rfl | hp'
            · rw [hext, lookup_append]
              have hx1 : (st.1 ++ [(x, y)]).lookup x = some y := by
                rw [lookup_append, hl, lookup_cons]
                simp
              rw [hx1]
              rfl
            · exact hcov p hp'

theorem stInv_init (e : Bool) :
    StInv e (([], []) : List (Color × Color) × List Color) := by
  refine ⟨by simp, ?_, ?_⟩
  · intro _ p hp
    simp at hp
  · intro y
    simp

theorem taskCells_cons (p : GridPair) (t : List GridPair) :
    taskCells (p :: t) = alignedCells p ++ taskCells t := by
  simp [taskCells]

theorem trainFold_eq_cellsFold (e : Bool) (train : List GridPair)
    (st : List (Color × Color) × List Color) :
    train.foldlM (fun st p => (alignedCells p).foldlM (cspStep e) st) st
      = (taskCells train).foldlM (cspStep e) st := by
  induction train generalizing st with
  | nil => rfl
  | cons p t ihp =>
    rw [List.foldlM_cons, taskCells_cons, List.foldlM_append]
    exact bind_congr (fun b => ihp b)

theorem infer_isSome_iff (train : List GridPair) (e : Bool) :
    (infer_color_permutation_csp train e).isSome ↔
      (taskCells train ≠ [] ∧ FnConsistent (taskCells train)
        ∧ (e = true → InjConsistent (taskCells train))) := by
  have hspec := cellsFold_spec e (taskCells train) ([], []) (stInv_init e)
  unfold infer_color_permutation_csp
  rw [trainFold_eq_cellsFold]
  cases hres : (taskCells train).foldlM (cspStep e) ([], []) with
  | none =>
    rw [hres] at hspec
    simp only [Option.isSome_none, Bool.false_eq_true, false_iff]
    rintro ⟨hne, hfn, hinj⟩
    have hfalse := hspec.1.2 ⟨by simpa using hfn, by simpa using hinj⟩
    simp at hfalse
  | some st' =>
    rw [hres] at hspec
    have hfn : FnConsistent (taskCells train)
        ∧ (e = true → InjConsistent (taskCells train)) := by
      have h1 := hspec.1.1 (by simp)
      simpa using h1
    dsimp only
    by_cases hemp : st'.1.isEmpty
    · rw [if_pos hemp]
      simp only [Option.isSome_none, Bool.false_eq_true, false_iff]
      rintro ⟨hne, -, -⟩
      obtain ⟨p, hp⟩ := List.exists_mem_of_ne_nil _ hne
      have hcov := hspec.2 st' rfl |>.2 p hp
      rw [List.isEmpty_iff.1 hemp] at hcov
      simp [List.lookup] at hcov
    · rw [if_neg hemp]
      simp only [Option.isSome_some, true_iff]
      refine ⟨?_, hfn.1, hfn.2⟩
      intro hnil
      apply hemp
      have : (taskCells train).foldlM (cspStep e) (([], []) :
          List (Color × Color) × List Color) = some ([], []) := by
        rw [hnil]
        rfl
      rw [this] at hres
      obtain rfl : (([], []) : List (Color × Color) × List Color) = st' := by
        simpa using hres
      simp
  
theorem infer_some_spec (train : List GridPair) (e : Bool)
    (m : List (Color × Color))
    (hinf : infer_color_permutation_csp train e = some m) :
    (∀ p ∈ m, p ∈ taskCells train)
    ∧ ∀ p ∈ taskCells train,
        ∃ v, m.lookup p.1 = some v ∧ (p.1, v) ∈ taskCells train := by
  have hspec := cellsFold_spec e (taskCells train) ([], []) (stInv_init e)
  unfold infer_color_permutation_csp at hinf
  rw [trainFold_eq_cellsFold] at hinf
  cases hres : (taskCells train).foldlM (cspStep e) ([], []) with
  | none =>
    rw [hres] at hinf
    simp at hinf
  | some st' =>
    rw [hres] at hinf
    dsimp only at hinf
    by_cases hemp : st'.1.isEmpty
    · rw [if_pos hemp] at hinf
      simp at hinf
    · rw [if_neg hemp] at hinf
      obtain rfl : st'.1 = m := by simpa using hinf
      obtain ⟨⟨ext, hext, hextmem⟩, hcov⟩ := hspec.2 st' hres
      have hsub : ∀ p ∈ st'.1, p ∈ taskCells train := by
        intro p hp
        rw [hext] at hp
        exact hextmem p (by simpa using hp)
      refine ⟨hsub, ?_⟩
      intro p hp
      obtain ⟨v, hv⟩ := Option.isSome_iff_exists.1 (hcov p hp)
      exact ⟨v, hv, hsub _ (lookup_some_mem hv)⟩

/-! ## Claim C6: the yes/no outcome of strict inference is order-independent -/

/-- C6: for every two sequences of training pairs that are permutations of
each other, `infer_color_permutation_csp` returns the failure signal on one
iff it does on the other: the conflict decision depends only on the multiset
of aligned (input color, output color) cell pairs, which a permutation of
the pair list permutes. -/
theorem infer_failure_order_independent (e : Bool) (t₁ t₂ : List GridPair)
    (hperm : List.Perm t₁ t₂) :
    (infer_color_permutation_csp t₁ e = none
      ↔ infer_color_permutation_csp t₂ e = none) := by
  have hcells : List.Perm (taskCells t₁) (taskCells t₂) :=
    hperm.flatMap_right alignedCells
  have hmem : ∀ a, a ∈ taskCells t₁ ↔ a ∈ taskCells t₂ :=
    fun a => hcells.mem_iff
  have hnil : taskCells t₁ = [] ↔ taskCells t₂ = [] := by
    rw [← List.length_eq_zero, ← List.length_eq_zero, hcells.length_eq]
  rw [← Option.not_isSome_iff_eq_none, ← Option.not_isSome_iff_eq_none,
    infer_isSome_iff, infer_isSome_iff]
  apply not_congr
  exact and_congr (not_congr hnil)
    (and_congr (fnConsistent_congr hmem)
      (imp_congr Iff.rfl (injConsistent_congr hmem)))

theorem infer_failure_order_independent_witness :
    List.Perm [(⟨[[1]], [[3]]⟩ : GridPair), ⟨[[1]], [[5]]⟩]
        [(⟨[[1]], [[5]]⟩ : GridPair), ⟨[[1]], [[3]]⟩]
    ∧ (infer_color_permutation_csp [⟨[[1]], [[3]]⟩, ⟨[[1]], [[5]]⟩] true = none
        ↔ infer_color_permutation_csp [⟨[[1]], [[5]]⟩, ⟨[[1]], [[3]]⟩] true = none) :=
  ⟨by decide, infer_failure_order_independent true _ _ (by decide)⟩

/-! ## Claim C3: additive mod-10 transforms -/

theorem npShape_map (f : Color → Color) (g : Grid) :
    npShape (g.map (List.map f)) = npShape g := by
  cases g with
  | nil => rfl
  | cons r t => simp [npShape, rowLen]

theorem modAdd_inj {k x₁ x₂ : Int} (h₁ : 0 ≤ x₁ ∧ x₁ < 10) (h₂ : 0 ≤ x₂ ∧ x₂ < 10)
    (h : (x₁ + k) % 10 = (x₂ + k) % 10) : x₁ = x₂ := by
  have hm : x₁ ≡ x₂ [ZMOD 10] :=
    Int.ModEq.add_right_cancel (Int.ModEq.refl k) h
  have e1 : x₁ % 10 = x₁ := Int.emod_eq_of_lt h₁.1 h₁.2
  have e2 : x₂ % 10 = x₂ := Int.emod_eq_of_lt h₂.1 h₂.2
  rw [← e1, ← e2]
  exact hm

theorem taskCells_modAdd {train : List GridPair} {k : Int}
    (hmod : ∀ p ∈ train, p.output = gridModAdd k p.input) :
    ∀ q ∈ taskCells train,
      q.2 = (q.1 + k) % 10 ∧ ∃ p ∈ train, q.1 ∈ p.input.flatten := by
  rintro ⟨qx, qy⟩ hq
  obtain ⟨p, hp, hq'⟩ := List.mem_flatMap.1 hq
  unfold alignedCells at hq'
  by_cases hsh : npShape p.input = npShape p.output
  · rw [if_pos hsh] at hq'
    have hout : p.output.flatten
        = p.input.flatten.map (fun c => (c + k) % 10) := by
      rw [hmod p hp]
      exact (List.map_flatten _ _).symm
    rw [hout] at hq'
    obtain ⟨h1, h2⟩ := of_mem_zip_map_self hq'
    exact ⟨h1, p, hp, h2⟩
  · rw [if_neg hsh] at hq'
    simp at hq'

theorem mem_taskCells_modAdd {train : List GridPair} {k : Int}
    (hmod : ∀ p ∈ train, p.output = gridModAdd k p.input)
    {p : GridPair} (hp : p ∈ train) {x : Color} (hx : x ∈ p.input.flatten) :
    (x, (x + k) % 10) ∈ taskCells train := by
  apply List.mem_flatMap.2
  refine ⟨p, hp, ?_⟩
  unfold alignedCells
  have hsh : npShape p.input = npShape p.output := by
    rw [hmod p hp]
    exact (npShape_map _ _).symm
  rw [if_pos hsh, hmod p hp]
  show (x, (x + k) % 10) ∈ p.input.flatten.zip
    (p.input.map (List.map (fun c => (c + k) % 10))).flatten
  rw [show (p.input.map (List.map (fun c => (c + k) % 10))).flatten
      = p.input.flatten.map (fun c => (c + k) % 10) from (List.map_flatten _ _).symm]
  exact mem_zip_map_self _ hx

/-- C3 counterexample: the training pair `{input=[[0]], output=[[1]]}`
satisfies `output = (input + 1) mod 10` with matching shapes, and the test
input `[[2]]` has that same 1×1 shape, yet `csp_solver` returns `[[2]]`
(the inferred map `{0 ↦ 1}` leaks unseen colors through unchanged), not
`(test + 1) mod 10 = [[3]]`. -/
theorem solve_not_diff_transform :
    (∀ p ∈ ([⟨[[0]], [[1]]⟩] : List GridPair),
      p.output = gridModAdd 1 p.input ∧ npShape p.input = npShape ([[2]] : Grid))
    ∧ csp_solver [⟨[[0]], [[1]]⟩] [[2]] none = some [[2]]
    ∧ ([[2]] : Grid) ≠ gridModAdd 1 [[2]] := by decide

/-- C3 amended: if every training pair satisfies `output = (input + k) mod 10`
for a fixed integer `k`, pairs share the test input's shape, training input
colors lie in [0, 10), there is at least one training pair and the test grid
has at least one cell, then for a test input all of whose colors occur in
some training input, `csp_solver` returns exactly `(test + k) mod 10`.
(The original claim omitted the coverage condition: colors absent from the
training inputs pass through the inferred map unchanged.) -/
theorem solve_modadd_exact (train : List GridPair) (test : Grid)
    (prior : Option Color) (k : Int)
    (hmod : ∀ p ∈ train, p.output = gridModAdd k p.input)
    (hshape : ∀ p ∈ train, p.input.map List.length = test.map List.length)
    (hrange : ∀ p ∈ train, ∀ c ∈ p.input.flatten, 0 ≤ c ∧ c < 10)
    (hcover : ∀ c ∈ test.flatten, ∃ p ∈ train, c ∈ p.input.flatten)
    (htrne : train ≠ []) (htene : test.flatten ≠ []) :
    csp_solver train test prior = some (gridModAdd k test) := by
  have hcells := taskCells_modAdd hmod
  have hfn : FnConsistent (taskCells train) := by
    intro p hp q hq hpq
    rw [(hcells p hp).1, (hcells q hq).1, hpq]
  have hinj : InjConsistent (taskCells train) := by
    intro p hp q hq hpq
    obtain ⟨hp2, pp, hpp, hpx⟩ := hcells p hp
    obtain ⟨hq2, qq, hqq, hqx⟩ := hcells q hq
    exact modAdd_inj (hrange pp hpp p.1 hpx) (hrange qq hqq q.1 hqx)
      (by rw [← hp2, ← hq2, hpq])
  have hne : taskCells train ≠ [] := by
    obtain ⟨p₀, hp₀⟩ := List.exists_mem_of_ne_nil _ htrne
    have hlen : p₀.input.flatten.length = test.flatten.length := by
      rw [List.length_flatten, List.length_flatten, hshape p₀ hp₀]
    have hx : p₀.input.flatten ≠ [] := by
      intro h0
      apply htene
      apply List.length_eq_zero.1
      rw [← hlen, h0]
      rfl
    obtain ⟨x₀, hx₀⟩ := List.exists_mem_of_ne_nil _ hx
    intro hnil
    have hmem := mem_taskCells_modAdd hmod hp₀ hx₀
    rw [hnil] at hmem
    simp at hmem
  have hsome : (infer_color_permutation_csp train true).isSome := by
    rw [infer_isSome_iff]
    exact ⟨hne, hfn, fun _ => hinj⟩
  obtain ⟨m, hm⟩ := Option.isSome_iff_exists.1 hsome
  have hlook : ∀ c ∈ test.flatten, (m.lookup c).getD c = (c + k) % 10 := by
    intro c hc
    obtain ⟨p, hp, hcp⟩ := hcover c hc
    have hmem := mem_taskCells_modAdd hmod hp hcp
    obtain ⟨v, hv, hvmem⟩ := (infer_some_spec train true m hm).2 _ hmem
    dsimp only at hv hvmem
    have hveq : v = (c + k) % 10 := (hcells (c, v) hvmem).1
    rw [hv, hveq]
    rfl
  simp only [csp_solver, hm]
  unfold mapGridExc
  rw [if_neg (by simpa [List.isEmpty_iff] using htene)]
  congr 1
  unfold gridModAdd
  apply List.map_congr_left
  intro r hr
  apply List.map_congr_left
  intro c hc
  exact hlook c (List.mem_flatten.2 ⟨r, hr, hc⟩)

theorem solve_modadd_exact_witness :
    (∀ p ∈ ([⟨[[1, 2], [2, 1]], [[3, 4], [4, 3]]⟩] : List GridPair),
      p.output = gridModAdd 2 p.input) ∧
    (∀ p ∈ ([⟨[[1, 2], [2, 1]], [[3, 4], [4, 3]]⟩] : List GridPair),
      p.input.map List.length = ([[1, 1], [2, 2]] : Grid).map List.length) ∧
    (∀ p ∈ ([⟨[[1, 2], [2, 1]], [[3, 4], [4, 3]]⟩] : List GridPair),
      ∀ c ∈ p.input.flatten, 0 ≤ c ∧ c < 10) ∧
    (∀ c ∈ ([[1, 1], [2, 2]] : Grid).flatten,
      ∃ p ∈ ([⟨[[1, 2], [2, 1]], [[3, 4], [4, 3]]⟩] : List GridPair),
        c ∈ p.input.flatten) ∧
    csp_solver [⟨[[1, 2], [2, 1]], [[3, 4], [4, 3]]⟩] [[1, 1], [2, 2]] none
      = some (gridModAdd 2 [[1, 1], [2, 2]]) :=
  ⟨by decide, by decide, by decide, by decide,
    solve_modadd_exact [⟨[[1, 2], [2, 1]], [[3, 4], [4, 3]]⟩] [[1, 1], [2, 2]]
      none 2 (by decide) (by decide) (by decide) (by decide) (by decide) (by decide)⟩

/-! ## Claim C9: every output cell's color has a provenance -/

theorem taskCells_snd_mem {train : List GridPair} {q : Color × Color}
    (hq : q ∈ taskCells train) : ∃ p ∈ train, q.2 ∈ p.output.flatten := by
  obtain ⟨p, hp, hq'⟩ := List.mem_flatMap.1 hq
  unfold alignedCells at hq'
  by_cases hsh : npShape p.input = npShape p.output
  · rw [if_pos hsh] at hq'
    exact ⟨p, hp, (List.of_mem_zip hq').2⟩
  · rw [if_neg hsh] at hq'
    simp at hq'

theorem learnColorMap_eq_writes_fold (train : List GridPair) :
    learnColorMap train
      = (codeWrites train).foldl (fun m w => dinsert m w.1 w.2) [] := by
  suffices h : ∀ m₀ : List (Color × Color),
      train.foldl
        (fun m p =>
          ((npUnique p.input.flatten).zip (npUnique p.output.flatten)).foldl
            (fun m q => dinsert m q.1 q.2) m) m₀
        = (codeWrites train).foldl (fun m w => dinsert m w.1 w.2) m₀ from
    h []
  induction train with
  | nil => intro m₀; rfl
  | cons p t ih =>
    intro m₀
    rw [List.foldl_cons,
      show codeWrites (p :: t)
          = ((npUnique p.input.flatten).zip (npUnique p.output.flatten))
              ++ codeWrites t from by simp [codeWrites],
      List.foldl_append]
    exact ih _

theorem mem_foldl_dinsert {q : Color × Color} :
    ∀ (ws m₀ : List (Color × Color)),
      q ∈ ws.foldl (fun m w => dinsert m w.1 w.2) m₀ → q ∈ m₀ ∨ q ∈ ws := by
  intro ws
  induction ws with
  | nil =>
    intro m₀ h
    exact Or.inl h
  | cons w t ih =>
    intro m₀ h
    rw [List.foldl_cons] at h
    rcases ih _ h with h' | h'
    · rcases mem_dinsert h' with h'' | h''
      · exact Or.inl h''
      · refine Or.inr ?_
        rw [h'']
        exact List.mem_cons_self _ _
    · exact Or.inr (List.mem_cons_of_mem _ h')

theorem codeWrites_snd_mem {train : List GridPair} {q : Color × Color}
    (hq : q ∈ codeWrites train) : ∃ p ∈ train, q.2 ∈ p.output.flatten := by
  obtain ⟨p, hp, hq'⟩ := List.mem_flatMap.1 hq
  exact ⟨p, hp, mem_npUnique.1 (List.of_mem_zip hq').2⟩

/-- C9: on well-formed inputs whose colors all lie in [0, 9] (training
grids, test grid, and prior when supplied), every cell of a grid returned by
`csp_solver` lies in [0, 9]; more precisely each output cell is a color from
some training output, a color of the test input, the prior, or 0. -/
theorem solve_output_colors (train : List GridPair) (test : Grid)
    (prior : Option Color) (g : Grid)
    (hg : csp_solver train test prior = some g)
    (htr : ∀ p ∈ train, (∀ c ∈ p.input.flatten, 0 ≤ c ∧ c ≤ 9)
      ∧ (∀ c ∈ p.output.flatten, 0 ≤ c ∧ c ≤ 9))
    (hte : ∀ c ∈ test.flatten, 0 ≤ c ∧ c ≤ 9)
    (hpr : ∀ q, prior = some q → 0 ≤ q ∧ q ≤ 9) :
    ∀ v ∈ g.flatten, (0 ≤ v ∧ v ≤ 9)
      ∧ ((∃ p ∈ train, v ∈ p.output.flatten) ∨ v ∈ test.flatten
          ∨ prior = some v ∨ v = 0) := by
  have hprov : ∀ v ∈ g.flatten,
      (∃ p ∈ train, v ∈ p.output.flatten) ∨ v ∈ test.flatten
        ∨ prior = some v ∨ v = 0 := by
    cases hinf : infer_color_permutation_csp train true with
    | some m =>
      have hg' := hg
      simp only [csp_solver, hinf] at hg'
      unfold mapGridExc at hg'
      by_cases hemp : test.flatten.isEmpty
      · rw [if_pos hemp] at hg'
        simp at hg'
      · rw [if_neg hemp] at hg'
        obtain rfl : test.map (List.map fun c => (m.lookup c).getD c) = g := by
          simpa using hg'
        intro v hv
        rw [show (test.map (List.map fun c => (m.lookup c).getD c)).flatten
            = test.flatten.map (fun c => (m.lookup c).getD c) from
          (List.map_flatten _ _).symm] at hv
        obtain ⟨c, hc, hcv⟩ := List.mem_map.1 hv
        cases hl : m.lookup c with
        | some y =>
          rw [hl] at hcv
          have hy : y = v := by simpa using hcv
          left
          have hmem : (c, y) ∈ taskCells train :=
            (infer_some_spec train true m hinf).1 _ (lookup_some_mem hl)
          obtain ⟨p, hp, hout⟩ := taskCells_snd_mem hmem
          exact ⟨p, hp, hy ▸ hout⟩
        | none =>
          rw [hl] at hcv
          right
          left
          have hcveq : c = v := by simpa using hcv
          exact hcveq ▸ hc
    | none =>
      have hg' := hg
      simp only [csp_solver, hinf, Option.some.injEq] at hg'
      obtain rfl : g = solve_arc_task_baseline train test prior := hg'.symm
      intro v hv
      rw [show solve_arc_task_baseline train test prior
          = (match mapGridExc (fun c =>
                ((learnColorMap train).lookup c).getD (prior.getD c)) test with
             | some g2 => g2
             | none => fullLike test (prior.getD 0)) from rfl] at hv
      unfold mapGridExc at hv
      by_cases hemp : test.flatten.isEmpty
      · rw [if_pos hemp] at hv
        have hnil : (fullLike test ((prior).getD 0)).flatten = [] := by
          have h0 : test.flatten = [] := List.isEmpty_iff.1 hemp
          show (test.map (fun r => r.map fun _ => prior.getD 0)).flatten = []
          rw [show (test.map (fun r => r.map fun _ => prior.getD 0)).flatten
              = test.flatten.map (fun _ => prior.getD 0) from
            (List.map_flatten _ _).symm, h0]
          rfl
        rw [hnil] at hv
        simp at hv
      · rw [if_neg hemp] at hv
        rw [show (test.map (List.map fun c =>
              ((learnColorMap train).lookup c).getD (prior.getD c))).flatten
            = test.flatten.map (fun c =>
              ((learnColorMap train).lookup c).getD (prior.getD c)) from
          (List.map_flatten _ _).symm] at hv
        obtain ⟨c, hc, hcv⟩ := List.mem_map.1 hv
        cases hl : (learnColorMap train).lookup c with
        | some y =>
          rw [hl] at hcv
          have hy : y = v := by simpa using hcv
          left
          have hq := lookup_some_mem hl
          rw [learnColorMap_eq_writes_fold] at hq
          rcases mem_foldl_dinsert _ _ hq with h0 | h0
          · simp at h0
          · obtain ⟨p, hp, hout⟩ := codeWrites_snd_mem h0
            exact ⟨p, hp, hy ▸ hout⟩
        | none =>
          rw [hl] at hcv
          cases hprior : prior with
          | some q =>
            right
            right
            left
            rw [hprior] at hcv
            have hqv : q = v := by simpa using hcv
            rw [hqv]
          | none =>
            right
            left
            rw [hprior] at hcv
            have hcveq : c = v := by simpa using hcv
            exact hcveq ▸ hc
  intro v hv
  refine ⟨?_, hprov v hv⟩
  rcases hprov v hv with ⟨p, hp, hout⟩ | hv' | hv' | hv'
  · exact (htr p hp).2 v hout
  · exact hte v hv'
  · exact hpr v hv'
  · subst hv'
    exact ⟨le_refl 0, by norm_num⟩

theorem solve_output_colors_witness :
    csp_solver [⟨[[1]], [[2]]⟩] [[1, 3]] (some 5) = some [[2, 3]] ∧
    (∀ p ∈ ([⟨[[1]], [[2]]⟩] : List GridPair),
      (∀ c ∈ p.input.flatten, 0 ≤ c ∧ c ≤ 9)
        ∧ (∀ c ∈ p.output.flatten, 0 ≤ c ∧ c ≤ 9)) ∧
    (∀ c ∈ ([[1, 3]] : Grid).flatten, 0 ≤ c ∧ c ≤ 9) ∧
    ∀ v ∈ ([[2, 3]] : Grid).flatten, (0 ≤ v ∧ v ≤ 9)
      ∧ ((∃ p ∈ ([⟨[[1]], [[2]]⟩] : List GridPair), v ∈ p.output.flatten)
          ∨ v ∈ ([[1, 3]] : Grid).flatten ∨ (some 5 : Option Color) = some v
          ∨ v = 0) :=
  ⟨by decide, by decide, by decide,
    solve_output_colors [⟨[[1]], [[2]]⟩] [[1, 3]] (some 5) [[2, 3]]
      (by decide) (by decide) (by decide) (by decide)⟩

/-! ## Claim C8: the fallback ColorMap against its specification -/

theorem npUnique_eq_spec (l : List Color) : npUnique l = specSortedColors l := by
  have h1 := npUnique_spec l
  have hsort1 : (npUnique l).Sorted (· ≤ ·) := h1.1.imp (fun h => le_of_lt h)
  have hnodup1 : (npUnique l).Nodup := h1.1.nodup
  have hperm2 : List.Perm (specSortedColors l) l.dedup :=
    List.perm_insertionSort _ _
  have hsort2 : (specSortedColors l).Sorted (· ≤ ·) :=
    List.sorted_insertionSort _ _
  have hnodup2 : (specSortedColors l).Nodup := hperm2.nodup_iff.2 l.nodup_dedup
  have hmem : ∀ a, a ∈ npUnique l ↔ a ∈ specSortedColors l := by
    intro a
    rw [h1.2 a, hperm2.mem_iff, List.mem_dedup]
  have hperm : List.Perm (npUnique l) (specSortedColors l) :=
    (List.perm_ext_iff_of_nodup hnodup1 hnodup2).2 hmem
  exact List.eq_of_perm_of_sorted hperm hsort1 hsort2

theorem foldl_dinsert_lookup (c : Color) :
    ∀ (ws m₀ : List (Color × Color)),
      (ws.foldl (fun m w => dinsert m w.1 w.2) m₀).lookup c
        = (match ws.reverse.lookup c with
           | some v => some v
           | none => m₀.lookup c) := by
  intro ws
  induction ws with
  | nil =>
    intro m₀
    rfl
  | cons w t ih =>
    intro m₀
    rw [List.foldl_cons, ih, List.reverse_cons, lookup_append]
    cases ht : t.reverse.lookup c with
    | some v => rfl
    | none =>
      have hw : ([w] : List (Color × Color)).lookup c
          = if c = w.1 then some w.2 else none := by
        rw [show w = (w.1, w.2) from rfl, lookup_cons]
        rfl
      rw [dinsert_lookup, hw]
      by_cases hc : c = w.1
      · rw [if_pos hc, if_pos hc]
      · rw [if_neg hc, if_neg hc]

theorem codeWrites_eq_spec (train : List GridPair) :
    codeWrites train = spec_rank_writes train := by
  unfold codeWrites spec_rank_writes
  simp only [npUnique_eq_spec]

/-- C8: the fallback's learned ColorMap, as a lookup function, is exactly
the spec's description: pair the i-th smallest distinct input color of each
training pair with the i-th smallest distinct output color, truncate to the
shorter list, and merge across pairs with last-write-wins (the last write in
processing order is the one found). -/
theorem learn_color_map_eq_spec (train : List GridPair) (c : Color) :
    (learnColorMap train).lookup c = spec_fallback_lookup train c := by
  rw [learnColorMap_eq_writes_fold, foldl_dinsert_lookup, codeWrites_eq_spec]
  unfold spec_fallback_lookup
  cases h : (spec_rank_writes train).reverse.lookup c with
  | some v => rfl
  | none => rfl
